import Mathlib

/-!
Shallow embedding of `src/share/vm/gc_implementation/shenandoah/shenandoahTaskqueue.hpp`
(Shenandoah GC task queues, jdk8u hotspot).

Modelling conventions:
- `uintptr_t` machine words are `Nat` values reduced modulo `2 ^ 64` exactly where
  the C++ source performs a cast to `uintptr_t` (the file is the `_LP64` variant
  for the packed encoding, so words are 64 bits wide);
- C++ `int` is modelled as `Int` (the source only ever checks such values against
  bounds far below `2 ^ 31`, so signed 32-bit overflow never arises in any
  modelled path);
- `oop` (a machine pointer) is modelled by its numeric value, a `Nat`;
- fallible operations return `Option`.
-/

namespace Shenandoah

/-- Bit budget of the chunk field, from the first enum block of
`ObjArrayChunkedTask` (`chunk_bits = 10`). -/
def chunk_bits : Nat := 10

/-- Bit budget of the power field (`pow_bits = 5`). -/
def pow_bits : Nat := 5

/-- Bit budget of the oop field: `sizeof(uintptr_t)*8 - chunk_bits - pow_bits`,
i.e. `64 - 10 - 5 = 49` on `_LP64`. -/
def oop_bits : Nat := 64 - chunk_bits - pow_bits

/-- `chunk_size = nth_bit(chunk_bits)`; hotspot's `nth_bit(b)` is `1 << b`. -/
def chunk_size : Nat := 2 ^ chunk_bits

/-- `pow_size = nth_bit(pow_bits)`. -/
def pow_size : Nat := 2 ^ pow_bits

/-- `oop_size = nth_bit(oop_bits)`. -/
def oop_size : Nat := 2 ^ oop_bits

/-- `oop_shift = 0`. -/
def oop_shift : Nat := 0

/-- `pow_shift = oop_shift + oop_bits = 49`. -/
def pow_shift : Nat := oop_shift + oop_bits

/-- `chunk_shift = pow_shift + pow_bits = 54`. -/
def chunk_shift : Nat := pow_shift + pow_bits

/-- `oop_mask = right_n_bits(oop_bits)`; hotspot's `right_n_bits(n)` is
`nth_bit(n) - 1`, i.e. the low `n` bits set. -/
def oop_mask : Nat := 2 ^ oop_bits - 1

/-- `pow_mask = right_n_bits(pow_bits)`. -/
def pow_mask : Nat := 2 ^ pow_bits - 1

/-- `chunk_mask = right_n_bits(chunk_bits)`. -/
def chunk_mask : Nat := 2 ^ chunk_bits - 1

/-- `chunk_mask_unshift = ~right_n_bits(oop_bits + pow_bits)`: bitwise complement
on a 64-bit word of the low 54 bits, i.e. `2^64 - 1 - (2^54 - 1) = 2^64 - 2^54`
(the high 10 bits set). -/
def chunk_mask_unshift : Nat := 2 ^ 64 - 2 ^ (oop_bits + pow_bits)

/-- The packed (`_LP64`) `ObjArrayChunkedTask`: a single `uintptr_t` word `_obj`
holding `|---------oop---------|-pow-|--chunk---|` (bit 0 .. 49 .. 54 .. 64). -/
structure ObjArrayChunkedTask where
  _obj : Nat
  deriving DecidableEq, Repr

/-- Plain constructor `ObjArrayChunkedTask(oop o = NULL)`:
`_obj = ((uintptr_t)(void*) o) << oop_shift`.  The cast to `uintptr_t` reduces
the pointer value modulo `2 ^ 64`; `oop_shift` is 0. -/
def mkPlain (o : Nat) : ObjArrayChunkedTask :=
  ⟨(o % 2 ^ 64) <<< oop_shift⟩

/-- Chunked constructor `ObjArrayChunkedTask(oop o, int chunk, int mult)` with the
debug assertions stripped (they are modelled by `mkChunkedChecked`):
`t_b = ((uintptr_t) chunk) << chunk_shift`, `t_m = ((uintptr_t) mult) << pow_shift`,
`obj = (uintptr_t)(void*) o`, `t_o = obj << oop_shift`, `_obj = t_o | t_m | t_b`.
A cast of a C++ `int` to `uintptr_t` takes its value modulo `2 ^ 64`. -/
def mkChunked (o : Nat) (chunk mult : Int) : ObjArrayChunkedTask :=
  ⟨(o % 2 ^ 64) <<< oop_shift |||
   (((mult % 2 ^ 64).toNat <<< pow_shift) % 2 ^ 64) |||
   (((chunk % 2 ^ 64).toNat <<< chunk_shift) % 2 ^ 64)⟩

/-- The chunked constructor together with its debug assertions, in source order:
`assert(0 <= chunk && chunk < chunk_size)`, `assert(0 <= mult && mult < pow_size)`,
`assert(obj < oop_size)` where `obj = (uintptr_t)(void*) o`.  Returns `none` when
an assertion fails. -/
def mkChunkedChecked (o : Nat) (chunk mult : Int) : Option ObjArrayChunkedTask :=
  if 0 ≤ chunk ∧ chunk < (chunk_size : Int) then
    if 0 ≤ mult ∧ mult < (pow_size : Int) then
      if o % 2 ^ 64 < oop_size then
        some (mkChunked o chunk mult)
      else none
    else none
  else none

namespace ObjArrayChunkedTask

/-- Accessor `oop obj() const { return (oop)((_obj >> oop_shift) & oop_mask); }`. -/
def obj (t : ObjArrayChunkedTask) : Nat :=
  (t._obj >>> oop_shift) &&& oop_mask

/-- Accessor `int chunk() const { return (int)(_obj >> chunk_shift) & chunk_mask; }`.
The shifted value is below `2 ^ chunk_bits + anything masked away`; for any 64-bit
word `_obj` the shift by 54 yields a value below `2 ^ 10`, so the `(int)` cast is
value-preserving and the result is the masked shifted word. -/
def chunk (t : ObjArrayChunkedTask) : Int :=
  (((t._obj >>> chunk_shift) &&& chunk_mask : Nat) : Int)

/-- Accessor `int pow() const { return (int)((_obj >> pow_shift) & pow_mask); }`. -/
def pow (t : ObjArrayChunkedTask) : Int :=
  (((t._obj >>> pow_shift) &&& pow_mask : Nat) : Int)

/-- Predicate `bool is_not_chunked() const { return (_obj & chunk_mask_unshift) == 0; }`. -/
def is_not_chunked (t : ObjArrayChunkedTask) : Bool :=
  t._obj &&& chunk_mask_unshift == 0

end ObjArrayChunkedTask

/-- The fallback (narrow-platform, non-`_LP64`) `ObjArrayChunkedTask`: three plain
fields `oop _obj; int _chunk; int _pow;`. -/
structure ObjArrayChunkedTaskFallback where
  _obj : Nat
  _chunk : Int
  _pow : Int
  deriving DecidableEq, Repr

/-- Fallback constructor `ObjArrayChunkedTask(oop o, int chunk, int pow)` with the
debug assertions stripped: stores the three arguments unchanged. -/
def mkFallback (o : Nat) (chunk pow : Int) : ObjArrayChunkedTaskFallback :=
  ⟨o, chunk, pow⟩

/-- The fallback constructor used with its default arguments `chunk = 0, pow = 0`,
which is how a plain (non-chunked) task is built in the fallback encoding. -/
def mkFallbackPlain (o : Nat) : ObjArrayChunkedTaskFallback :=
  mkFallback o 0 0

namespace ObjArrayChunkedTaskFallback

/-- Accessor `oop obj() const { return _obj; }`. -/
def obj (t : ObjArrayChunkedTaskFallback) : Nat := t._obj

/-- Accessor `int chunk() const { return _chunk; }`. -/
def chunk (t : ObjArrayChunkedTaskFallback) : Int := t._chunk

/-- Accessor `int pow() const { return _pow; }`. -/
def pow (t : ObjArrayChunkedTaskFallback) : Int := t._pow

/-- Predicate `bool is_not_chunked() const { return _chunk == 0; }`. -/
def is_not_chunked (t : ObjArrayChunkedTaskFallback) : Bool :=
  t._chunk == 0

end ObjArrayChunkedTaskFallback

/-! Chunk splitting, from the design comment of `ObjArrayChunkedTask`
(lines 91-103): chunk `<C, P>` covers the interval `[ (C-1)*2^P; C*2^P )` and is
split into `<2*C - 1, P-1>` and `<2*C, P-1>`.  The splitting itself is performed
by the external marking loop; the task type encodes the coordinates. -/

/-- The half-open element index interval covered by chunk `<c, p>`:
`[ (c-1)*2^p; c*2^p )`. -/
def chunkInterval (c p : Nat) : Set Nat :=
  Set.Ico ((c - 1) * 2 ^ p) (c * 2 ^ p)

/-- One divide-and-conquer step on chunk coordinates: `<C, P>` splits into
`<2*C - 1, P-1>` (left) and `<2*C, P-1>` (right). -/
def splitChunk (c p : Nat) : (Nat × Nat) × (Nat × Nat) :=
  ((2 * c - 1, p - 1), (2 * c, p - 1))

/-- Recursively splitting chunk `<c, p>` all the way down to power 0, collecting
the resulting chunk coordinates left to right. -/
def splitAll : Nat → Nat → List (Nat × Nat)
  | c, 0 => [(c, 0)]
  | c, p + 1 => splitAll (2 * c - 1) p ++ splitAll (2 * c) p

/-- `BufferedOverflowTaskQueue<E, F, N>`: the single-slot buffer fields
`bool _buf_empty; E _elem;` plus the contents of the underlying
`OverflowTaskQueue` base object, which this spec treats as an external
collaborator whose `push` always succeeds (falling back to the overflow stack);
its contents are modelled as the list `taskqueue`, pushes appending on the
right. -/
structure BufferedOverflowTaskQueue (E : Type) where
  _buf_empty : Bool
  _elem : E
  taskqueue : List E
  deriving DecidableEq, Repr

/-- Constructor `BufferedOverflowTaskQueue() : _buf_empty(true)`: the buffer
starts empty (and so does a fresh underlying queue); the field `_elem` is left
uninitialized, made explicit as the parameter `garbage`. -/
def mkBufferedOverflowTaskQueue {E : Type} (garbage : E) :
    BufferedOverflowTaskQueue E :=
  ⟨true, garbage, []⟩

namespace BufferedOverflowTaskQueue

/-- Modelled from the spec: the body of `BufferedOverflowTaskQueue::push` lives
in `shenandoahTaskqueue.inline.hpp`, which is not among the sources here; only
its declaration and header comment (lines 43-48: try buffer, then queue, then
overflow stack; return true) are.  Spec section 4.2: if the buffer is empty,
place the task into the buffer; if it is occupied, evict the currently buffered
task into the underlying shared queue (which always succeeds) and place the new
task into the buffer; always return true. -/
def push {E : Type} (q : BufferedOverflowTaskQueue E) (t : E) :
    Bool × BufferedOverflowTaskQueue E :=
  if q._buf_empty then
    (true, { q with _elem := t, _buf_empty := false })
  else
    (true, { q with taskqueue := q.taskqueue ++ [q._elem], _elem := t })

/-- Modelled from the spec: the body of `BufferedOverflowTaskQueue::pop_buffer`
lives in `shenandoahTaskqueue.inline.hpp`, not among the sources here; only its
declaration and header comment (lines 50-51: attempt to pop from the buffer,
return true if anything was popped) are.  Spec section 4.2: if the buffer holds
a task, remove and return it; otherwise report empty. -/
def pop_buffer {E : Type} (q : BufferedOverflowTaskQueue E) :
    Option E × BufferedOverflowTaskQueue E :=
  if q._buf_empty then
    (none, q)
  else
    (some q._elem, { q with _buf_empty := true })

/-- `void clear_buffer() { _buf_empty = true; }`. -/
def clear_buffer {E : Type} (q : BufferedOverflowTaskQueue E) :
    BufferedOverflowTaskQueue E :=
  { q with _buf_empty := true }

/-- `bool buffer_empty() const { return _buf_empty; }`. -/
def buffer_empty {E : Type} (q : BufferedOverflowTaskQueue E) : Bool :=
  q._buf_empty

/-- `bool is_empty() const { return taskqueue_t::is_empty() && buffer_empty(); }`. -/
def is_empty {E : Type} (q : BufferedOverflowTaskQueue E) : Bool :=
  q.taskqueue.isEmpty && q.buffer_empty

end BufferedOverflowTaskQueue

/-- `ParallelClaimableQueueSet<T, F>`: the queue count `n` passed to the
`GenericTaskQueueSet` base (whose `size()` returns it) and the claim cursor
`volatile jint _claimed_index`.  The queues themselves live in the base class
(an external collaborator); `claim_next` is modelled as returning the index
passed to `GenericTaskQueueSet::queue`. -/
structure ParallelClaimableQueueSet where
  size : Nat
  _claimed_index : Int
  deriving DecidableEq, Repr

/-- Constructor `ParallelClaimableQueueSet(int n) : GenericTaskQueueSet<T, F>(n)`
(lines 245-247): records the queue count; the body sets only the debug-only
`_reserved` field, so the member `_claimed_index` is left uninitialized in
product builds.  Its indeterminate initial contents are made explicit as the
parameter `uninit`. -/
def mkParallelClaimableQueueSet (n : Nat) (uninit : Int) :
    ParallelClaimableQueueSet :=
  ⟨n, uninit⟩

namespace ParallelClaimableQueueSet

/-- `void clear_claimed() { _claimed_index = 0; }`. -/
def clear_claimed (s : ParallelClaimableQueueSet) : ParallelClaimableQueueSet :=
  { s with _claimed_index := 0 }

/-- `void reserve(uint n)` (lines 253-257): `_claimed_index = (jint) n` (the
accompanying `assert(n <= size())` appears as a hypothesis of the theorems). -/
def reserve (s : ParallelClaimableQueueSet) (n : Nat) :
    ParallelClaimableQueueSet :=
  { s with _claimed_index := (n : Int) }

/-- `T* ParallelClaimableQueueSet<T, F>::claim_next()` (lines 263-278), executed
sequentially: read `size`; if `_claimed_index >= size` return NULL; otherwise
`index = Atomic::add(1, &_claimed_index)` (hotspot's `Atomic::add` stores and
returns the incremented value); if `index <= size` return
`queue((uint) index - 1)`, else NULL.  The returned queue is modelled by its
index.  `jint` arithmetic is modelled on unbounded `Int`: every modelled run
keeps the cursor within `[0, size]`, far from 32-bit wraparound. -/
def claim_next (s : ParallelClaimableQueueSet) :
    Option Nat × ParallelClaimableQueueSet :=
  if s._claimed_index ≥ (s.size : Int) then
    (none, s)
  else if s._claimed_index + 1 ≤ (s.size : Int) then
    (some (s._claimed_index + 1 - 1).toNat,
      { s with _claimed_index := s._claimed_index + 1 })
  else
    (none, { s with _claimed_index := s._claimed_index + 1 })

/-- The results and final state of `k` successive sequential `claim_next` calls. -/
def claimRun : ParallelClaimableQueueSet → Nat →
    List (Option Nat) × ParallelClaimableQueueSet
  | s, 0 => ([], s)
  | s, k + 1 =>
    ((s.claim_next).1 :: (claimRun (s.claim_next).2 k).1,
      (claimRun (s.claim_next).2 k).2)

/-- The cursor invariant: the claim cursor never exceeds the queue-set size. -/
def cursorInv (s : ParallelClaimableQueueSet) : Prop :=
  s._claimed_index ≤ (s.size : Int)

instance (s : ParallelClaimableQueueSet) : Decidable (cursorInv s) :=
  inferInstanceAs (Decidable (s._claimed_index ≤ (s.size : Int)))

end ParallelClaimableQueueSet

/-- `ShenandoahCancelledTerminatorTerminator` (lines 330-337): a
`TerminatorTerminator` with no state of its own. -/
structure ShenandoahCancelledTerminatorTerminator where

namespace ShenandoahCancelledTerminatorTerminator

/-- `virtual bool should_exit_termination() { return false; }`. -/
def should_exit_termination (t : ShenandoahCancelledTerminatorTerminator) :
    Bool :=
  false

/-- `virtual bool should_force_termination() { return true; }`. -/
def should_force_termination (t : ShenandoahCancelledTerminatorTerminator) :
    Bool :=
  true

end ShenandoahCancelledTerminatorTerminator

/-! Bit-level helper lemmas about the packed word. -/

/-- Bits of the packed word `oop | pow | chunk` when each component is within its
bit budget: bit `i` reads the oop below 49, the power in `[49, 54)`, and the
chunk from 54 up. -/
lemma packed_word_testBit (o pn cn i : Nat) (ho : o < 2 ^ 49) (hp : pn < 2 ^ 5)
    (hc : cn < 2 ^ 10) :
    (o ||| pn <<< 49 ||| cn <<< 54).testBit i =
      if i < 49 then o.testBit i
      else if i < 54 then pn.testBit (i - 49)
      else cn.testBit (i - 54) := by
  simp only [Nat.testBit_lor, Nat.testBit_shiftLeft]
  by_cases h1 : i < 49
  · rw [if_pos h1, decide_eq_false (by omega : ¬ (i ≥ 49)),
      decide_eq_false (by omega : ¬ (i ≥ 54))]
    simp
  · have hob : o.testBit i = false :=
      Nat.testBit_eq_false_of_lt
        (lt_of_lt_of_le ho (Nat.pow_le_pow_right (by norm_num) (by omega)))
    by_cases h2 : i < 54
    · rw [if_neg h1, if_pos h2, decide_eq_true (by omega : i ≥ 49),
        decide_eq_false (by omega : ¬ (i ≥ 54))]
      simp [hob]
    · have hpb : pn.testBit (i - 49) = false :=
        Nat.testBit_eq_false_of_lt
          (lt_of_lt_of_le hp (Nat.pow_le_pow_right (by norm_num) (by omega)))
      rw [if_neg h1, if_neg h2, decide_eq_true (by omega : i ≥ 49),
        decide_eq_true (by omega : i ≥ 54)]
      simp [hob, hpb]

/-- Extracting the chunk field from the packed word recovers it exactly. -/
lemma packed_word_chunk (o pn cn : Nat) (ho : o < 2 ^ 49) (hp : pn < 2 ^ 5)
    (hc : cn < 2 ^ 10) :
    ((o ||| pn <<< 49 ||| cn <<< 54) >>> 54) &&& (2 ^ 10 - 1) = cn := by
  apply Nat.eq_of_testBit_eq
  intro i
  rw [Nat.testBit_and, Nat.testBit_shiftRight, Nat.testBit_two_pow_sub_one,
    packed_word_testBit o pn cn (54 + i) ho hp hc, if_neg (by omega),
    if_neg (by omega), show 54 + i - 54 = i by omega]
  by_cases h : i < 10
  · rw [decide_eq_true h]
    simp
  · rw [decide_eq_false h]
    have : cn.testBit i = false :=
      Nat.testBit_eq_false_of_lt
        (lt_of_lt_of_le hc (Nat.pow_le_pow_right (by norm_num) (by omega)))
    simp [this]

/-- Extracting the power field from the packed word recovers it exactly. -/
lemma packed_word_pow (o pn cn : Nat) (ho : o < 2 ^ 49) (hp : pn < 2 ^ 5)
    (hc : cn < 2 ^ 10) :
    ((o ||| pn <<< 49 ||| cn <<< 54) >>> 49) &&& (2 ^ 5 - 1) = pn := by
  apply Nat.eq_of_testBit_eq
  intro i
  rw [Nat.testBit_and, Nat.testBit_shiftRight, Nat.testBit_two_pow_sub_one,
    packed_word_testBit o pn cn (49 + i) ho hp hc, if_neg (by omega)]
  by_cases h : i < 5
  · rw [if_pos (by omega), show 49 + i - 49 = i by omega, decide_eq_true h]
    simp
  · have : pn.testBit i = false :=
      Nat.testBit_eq_false_of_lt
        (lt_of_lt_of_le hp (Nat.pow_le_pow_right (by norm_num) (by omega)))
    rw [decide_eq_false h]
    by_cases h2 : 49 + i < 54
    · rw [if_pos h2, show 49 + i - 49 = i by omega, this]
      simp
    · simp [this]

/-- Extracting the oop field from the packed word recovers it exactly. -/
lemma packed_word_obj (o pn cn : Nat) (ho : o < 2 ^ 49) (hp : pn < 2 ^ 5)
    (hc : cn < 2 ^ 10) :
    (o ||| pn <<< 49 ||| cn <<< 54) &&& (2 ^ 49 - 1) = o := by
  apply Nat.eq_of_testBit_eq
  intro i
  rw [Nat.testBit_and, Nat.testBit_two_pow_sub_one,
    packed_word_testBit o pn cn i ho hp hc]
  by_cases h : i < 49
  · rw [if_pos h, decide_eq_true h]
    simp
  · have : o.testBit i = false :=
      Nat.testBit_eq_false_of_lt
        (lt_of_lt_of_le ho (Nat.pow_le_pow_right (by norm_num) (by omega)))
    rw [decide_eq_false h, this]
    simp

/-- Masking the packed word with `chunk_mask_unshift` isolates the shifted chunk
field. -/
lemma packed_word_mask_unshift (o pn cn : Nat) (ho : o < 2 ^ 49) (hp : pn < 2 ^ 5)
    (hc : cn < 2 ^ 10) :
    (o ||| pn <<< 49 ||| cn <<< 54) &&& (2 ^ 64 - 2 ^ 54) = cn <<< 54 := by
  have hm : (2 : Nat) ^ 64 - 2 ^ 54 = (2 ^ 10 - 1) <<< 54 := by
    rw [Nat.shiftLeft_eq]
    norm_num
  apply Nat.eq_of_testBit_eq
  intro i
  rw [hm, Nat.testBit_and, Nat.testBit_shiftLeft, Nat.testBit_shiftLeft,
    Nat.testBit_two_pow_sub_one, packed_word_testBit o pn cn i ho hp hc]
  by_cases h : i < 54
  · rw [decide_eq_false (by omega : ¬ (i ≥ 54))]
    simp
  · rw [if_neg (by omega), if_neg h, decide_eq_true (by omega : i ≥ 54)]
    by_cases h2 : i - 54 < 10
    · rw [decide_eq_true h2]
      simp
    · have : cn.testBit (i - 54) = false :=
        Nat.testBit_eq_false_of_lt
          (lt_of_lt_of_le hc (Nat.pow_le_pow_right (by norm_num) (by omega)))
      rw [decide_eq_false h2, this]
      simp

/-- Masking a value that fits in `n` bits with the low-`n`-bits mask is the
identity. -/
lemma and_mask_of_lt (a n : Nat) (h : a < 2 ^ n) : a &&& (2 ^ n - 1) = a := by
  apply Nat.eq_of_testBit_eq
  intro i
  rw [Nat.testBit_and, Nat.testBit_two_pow_sub_one]
  by_cases hi : i < n
  · rw [decide_eq_true hi]
    simp
  · have : a.testBit i = false :=
      Nat.testBit_eq_false_of_lt
        (lt_of_lt_of_le h (Nat.pow_le_pow_right (by norm_num) (by omega)))
    rw [decide_eq_false hi, this]
    simp

/-- Under the constructor's assertion bounds, the word built by the chunked
constructor is the plain disjoint-field word. -/
lemma mkChunked_val (o : Nat) (c p : Int) (ho : o < oop_size) (hc0 : 0 ≤ c)
    (hc : c < (chunk_size : Int)) (hp0 : 0 ≤ p) (hp : p < (pow_size : Int)) :
    (mkChunked o c p)._obj = o ||| p.toNat <<< 49 ||| c.toNat <<< 54 := by
  have ho' : o < 2 ^ 49 := by
    simpa [oop_size, oop_bits, chunk_bits, pow_bits] using ho
  have hc' : c < 1024 := by
    simpa [chunk_size, chunk_bits] using hc
  have hp' : p < 32 := by
    simpa [pow_size, pow_bits] using hp
  have hcn : c.toNat < 1024 := by omega
  have hpn : p.toNat < 32 := by omega
  have hoN : o % 2 ^ 64 = o := Nat.mod_eq_of_lt (by norm_num at ho' ⊢; omega)
  have hcm : c % 2 ^ 64 = c := Int.emod_eq_of_lt hc0 (by omega)
  have hpm : p % 2 ^ 64 = p := Int.emod_eq_of_lt hp0 (by omega)
  have hms : ((p % 2 ^ 64).toNat <<< pow_shift) % 2 ^ 64 = p.toNat <<< 49 := by
    rw [hpm, show pow_shift = 49 from rfl]
    exact Nat.mod_eq_of_lt (by rw [Nat.shiftLeft_eq]; norm_num; omega)
  have hcs : ((c % 2 ^ 64).toNat <<< chunk_shift) % 2 ^ 64 = c.toNat <<< 54 := by
    rw [hcm, show chunk_shift = 54 from rfl]
    exact Nat.mod_eq_of_lt (by rw [Nat.shiftLeft_eq]; norm_num; omega)
  show (o % 2 ^ 64) <<< oop_shift ||| _ ||| _ = _
  rw [hoN, hms, hcs, show oop_shift = 0 from rfl, Nat.shiftLeft_zero]

/-- The oop accessor of a chunked task recovers the constructor's oop argument. -/
lemma mkChunked_obj (o : Nat) (c p : Int) (ho : o < oop_size) (hc0 : 0 ≤ c)
    (hc : c < (chunk_size : Int)) (hp0 : 0 ≤ p) (hp : p < (pow_size : Int)) :
    (mkChunked o c p).obj = o := by
  have ho' : o < 2 ^ 49 := by
    simpa [oop_size, oop_bits, chunk_bits, pow_bits] using ho
  have hcn : c.toNat < 2 ^ 10 := by
    have : c < 1024 := by simpa [chunk_size, chunk_bits] using hc
    norm_num
    omega
  have hpn : p.toNat < 2 ^ 5 := by
    have : p < 32 := by simpa [pow_size, pow_bits] using hp
    norm_num
    omega
  show (mkChunked o c p)._obj >>> oop_shift &&& oop_mask = o
  rw [mkChunked_val o c p ho hc0 hc hp0 hp, show oop_shift = 0 from rfl,
    Nat.shiftRight_zero,
    show oop_mask = 2 ^ 49 - 1 from by norm_num [oop_mask, oop_bits, chunk_bits, pow_bits]]
  exact packed_word_obj o p.toNat c.toNat ho' hpn hcn

/-- The chunk accessor of a chunked task recovers the constructor's chunk
argument. -/
lemma mkChunked_chunk (o : Nat) (c p : Int) (ho : o < oop_size) (hc0 : 0 ≤ c)
    (hc : c < (chunk_size : Int)) (hp0 : 0 ≤ p) (hp : p < (pow_size : Int)) :
    (mkChunked o c p).chunk = c := by
  have ho' : o < 2 ^ 49 := by
    simpa [oop_size, oop_bits, chunk_bits, pow_bits] using ho
  have hcn : c.toNat < 2 ^ 10 := by
    have : c < 1024 := by simpa [chunk_size, chunk_bits] using hc
    norm_num
    omega
  have hpn : p.toNat < 2 ^ 5 := by
    have : p < 32 := by simpa [pow_size, pow_bits] using hp
    norm_num
    omega
  show (((mkChunked o c p)._obj >>> chunk_shift &&& chunk_mask : Nat) : Int) = c
  rw [mkChunked_val o c p ho hc0 hc hp0 hp, show chunk_shift = 54 from rfl,
    show chunk_mask = 2 ^ 10 - 1 from by norm_num [chunk_mask, chunk_bits],
    packed_word_chunk o p.toNat c.toNat ho' hpn hcn]
  exact Int.toNat_of_nonneg hc0

/-- The power accessor of a chunked task recovers the constructor's power
argument. -/
lemma mkChunked_pow (o : Nat) (c p : Int) (ho : o < oop_size) (hc0 : 0 ≤ c)
    (hc : c < (chunk_size : Int)) (hp0 : 0 ≤ p) (hp : p < (pow_size : Int)) :
    (mkChunked o c p).pow = p := by
  have ho' : o < 2 ^ 49 := by
    simpa [oop_size, oop_bits, chunk_bits, pow_bits] using ho
  have hcn : c.toNat < 2 ^ 10 := by
    have : c < 1024 := by simpa [chunk_size, chunk_bits] using hc
    norm_num
    omega
  have hpn : p.toNat < 2 ^ 5 := by
    have : p < 32 := by simpa [pow_size, pow_bits] using hp
    norm_num
    omega
  show (((mkChunked o c p)._obj >>> pow_shift &&& pow_mask : Nat) : Int) = p
  rw [mkChunked_val o c p ho hc0 hc hp0 hp, show pow_shift = 49 from rfl,
    show pow_mask = 2 ^ 5 - 1 from by norm_num [pow_mask, pow_bits],
    packed_word_pow o p.toNat c.toNat ho' hpn hcn]
  exact Int.toNat_of_nonneg hp0

/-- A chunked task is reported non-chunked exactly when its chunk id is zero. -/
lemma mkChunked_is_not_chunked (o : Nat) (c p : Int) (ho : o < oop_size)
    (hc0 : 0 ≤ c) (hc : c < (chunk_size : Int)) (hp0 : 0 ≤ p)
    (hp : p < (pow_size : Int)) :
    (mkChunked o c p).is_not_chunked = (c == 0) := by
  have ho' : o < 2 ^ 49 := by
    simpa [oop_size, oop_bits, chunk_bits, pow_bits] using ho
  have hcn : c.toNat < 2 ^ 10 := by
    have : c < 1024 := by simpa [chunk_size, chunk_bits] using hc
    norm_num
    omega
  have hpn : p.toNat < 2 ^ 5 := by
    have : p < 32 := by simpa [pow_size, pow_bits] using hp
    norm_num
    omega
  show ((mkChunked o c p)._obj &&& chunk_mask_unshift == 0) = (c == 0)
  rw [mkChunked_val o c p ho hc0 hc hp0 hp,
    show chunk_mask_unshift = 2 ^ 64 - 2 ^ 54 from by
      norm_num [chunk_mask_unshift, oop_bits, chunk_bits, pow_bits],
    packed_word_mask_unshift o p.toNat c.toNat ho' hpn hcn]
  rw [Bool.eq_iff_iff]
  simp only [beq_iff_eq, Nat.shiftLeft_eq, Nat.mul_eq_zero]
  constructor
  · rintro (h | h)
    · omega
    · norm_num at h
  · intro h
    left
    omega

/-- The plain constructor stores the (64-bit reduced) reference unchanged. -/
lemma mkPlain_val (o : Nat) (h : o < 2 ^ 64) : (mkPlain o)._obj = o := by
  show (o % 2 ^ 64) <<< oop_shift = o
  rw [Nat.mod_eq_of_lt h, show oop_shift = 0 from rfl, Nat.shiftLeft_zero]

/-- The chunk accessor of a plain task whose reference has no bits at or above
position 54 is zero. -/
lemma mkPlain_chunk (r : Nat) (h : r < 2 ^ 54) : (mkPlain r).chunk = 0 := by
  show (((mkPlain r)._obj >>> chunk_shift &&& chunk_mask : Nat) : Int) = 0
  rw [mkPlain_val r (lt_trans h (by norm_num)), show chunk_shift = 54 from rfl,
    Nat.shiftRight_eq_div_pow, Nat.div_eq_of_lt h]
  simp

/-- The power accessor of a plain task with an in-budget reference is zero. -/
lemma mkPlain_pow (r : Nat) (h : r < 2 ^ 49) : (mkPlain r).pow = 0 := by
  show (((mkPlain r)._obj >>> pow_shift &&& pow_mask : Nat) : Int) = 0
  rw [mkPlain_val r (lt_trans h (by norm_num)), show pow_shift = 49 from rfl,
    Nat.shiftRight_eq_div_pow, Nat.div_eq_of_lt h]
  simp

/-- The oop accessor of a plain task with an in-budget reference recovers it. -/
lemma mkPlain_obj (r : Nat) (h : r < 2 ^ 49) : (mkPlain r).obj = r := by
  show (mkPlain r)._obj >>> oop_shift &&& oop_mask = r
  rw [mkPlain_val r (lt_trans h (by norm_num)), show oop_shift = 0 from rfl,
    Nat.shiftRight_zero,
    show oop_mask = 2 ^ 49 - 1 from by norm_num [oop_mask, oop_bits, chunk_bits, pow_bits]]
  exact and_mask_of_lt r 49 h

/-- A plain task whose reference has no bits at or above position 54 is reported
non-chunked. -/
lemma mkPlain_is_not_chunked (r : Nat) (h : r < 2 ^ 54) :
    (mkPlain r).is_not_chunked = true := by
  show ((mkPlain r)._obj &&& chunk_mask_unshift == 0) = true
  rw [mkPlain_val r (lt_trans h (by norm_num))]
  have hz : r &&& chunk_mask_unshift = 0 := by
    have hm : chunk_mask_unshift = (2 ^ 10 - 1) <<< 54 := by
      norm_num [chunk_mask_unshift, oop_bits, chunk_bits, pow_bits, Nat.shiftLeft_eq]
    apply Nat.eq_of_testBit_eq
    intro i
    rw [hm, Nat.testBit_and, Nat.testBit_shiftLeft, Nat.zero_testBit]
    by_cases hi : i ≥ 54
    · have : r.testBit i = false :=
        Nat.testBit_eq_false_of_lt
          (lt_of_lt_of_le h (Nat.pow_le_pow_right (by norm_num) (by omega)))
      rw [this]
      simp
    · rw [decide_eq_false hi]
      simp
  rw [hz]
  rfl

/-- Recursive splitting in closed form: splitting `<c, p>` (with `c` at least 1)
all the way down yields the chunks `<(c-1)*2^p + i + 1, 0>` for
`i = 0 .. 2^p - 1`, in order. -/
lemma splitAll_eq :
    ∀ (p c : Nat), 1 ≤ c →
      splitAll c p =
        (List.range (2 ^ p)).map (fun i => ((c - 1) * 2 ^ p + i + 1, 0)) := by
  intro p
  induction p with
  | zero =>
    intro c hc
    rw [show List.range (2 ^ 0) = [0] from rfl]
    simp [splitAll]
    omega
  | succ p ih =>
    intro c hc
    obtain ⟨d, rfl⟩ : ∃ d, c = d + 1 := ⟨c - 1, by omega⟩
    show splitAll (2 * (d + 1) - 1) p ++ splitAll (2 * (d + 1)) p = _
    rw [ih (2 * (d + 1) - 1) (by omega), ih (2 * (d + 1)) (by omega),
      show (2 : Nat) ^ (p + 1) = 2 ^ p + 2 ^ p by ring, List.range_add,
      List.map_append, List.map_map]
    congr 1
    · apply List.map_congr_left
      intro i hi
      have h1 : 2 * (d + 1) - 1 - 1 = 2 * d := by omega
      have h2 : d + 1 - 1 = d := by omega
      simp only [h1, h2, Prod.mk.injEq]
      refine ⟨by ring, by trivial⟩
    · apply List.map_congr_left
      intro i hi
      have h1 : 2 * (d + 1) - 1 = 2 * d + 1 := by omega
      have h2 : d + 1 - 1 = d := by omega
      simp only [Function.comp_apply, h1, h2, Prod.mk.injEq]
      refine ⟨by ring, by trivial⟩

/-! Claim theorems. -/

/-- C1: for a chunk task `<C, P>` with `C` and `P` at least 1, the two split
halves `<2C-1, P-1>` and `<2C, P-1>` cover intervals whose union is exactly the
original interval `[(C-1)*2^P, C*2^P)` and whose intersection is empty, and
recursively splitting down to power 0 yields exactly `2^P` chunks, all of power
0 (length-1 intervals), with consecutive chunk ids tiling the original interval
exactly once. -/
theorem split_partitions (c p : Nat) (hc : 1 ≤ c) (hp : 1 ≤ p) :
    (chunkInterval (splitChunk c p).1.1 (splitChunk c p).1.2 ∪
        chunkInterval (splitChunk c p).2.1 (splitChunk c p).2.2 =
      chunkInterval c p) ∧
    Disjoint (chunkInterval (splitChunk c p).1.1 (splitChunk c p).1.2)
      (chunkInterval (splitChunk c p).2.1 (splitChunk c p).2.2) ∧
    (splitAll c p).length = 2 ^ p ∧
    (∀ q ∈ splitAll c p, q.2 = 0) ∧
    (splitAll c p).map Prod.fst = List.range' ((c - 1) * 2 ^ p + 1) (2 ^ p) ∧
    (⋃ q ∈ splitAll c p, chunkInterval q.1 q.2) = chunkInterval c p := by
  obtain ⟨d, rfl⟩ : ∃ d, c = d + 1 := ⟨c - 1, by omega⟩
  obtain ⟨e, rfl⟩ : ∃ e, p = e + 1 := ⟨p - 1, by omega⟩
  have h1 : 2 * (d + 1) - 1 - 1 = 2 * d := by omega
  have h2 : d + 1 - 1 = d := by omega
  have h3 : 2 * (d + 1) - 1 = 2 * d + 1 := by omega
  have h4 : 2 * (d + 1) = 2 * d + 2 := by omega
  have ea : chunkInterval (2 * (d + 1) - 1) e =
      Set.Ico (2 * d * 2 ^ e) ((2 * d + 1) * 2 ^ e) := by
    unfold chunkInterval
    rw [show 2 * (d + 1) - 1 - 1 = 2 * d by omega,
      show 2 * (d + 1) - 1 = 2 * d + 1 by omega]
  have eb : chunkInterval (2 * (d + 1)) e =
      Set.Ico ((2 * d + 1) * 2 ^ e) ((2 * d + 2) * 2 ^ e) := by
    unfold chunkInterval
    rw [show 2 * (d + 1) - 1 = 2 * d + 1 by omega,
      show 2 * (d + 1) = 2 * d + 2 by omega]
  have ec : chunkInterval (d + 1) (e + 1) =
      Set.Ico (d * 2 ^ (e + 1)) ((d + 1) * 2 ^ (e + 1)) := by
    unfold chunkInterval
    rw [h2]
  refine ⟨?_, ?_, ?_, ?_, ?_, ?_⟩
  · show chunkInterval (2 * (d + 1) - 1) e ∪ chunkInterval (2 * (d + 1)) e =
      chunkInterval (d + 1) (e + 1)
    rw [ea, eb, ec,
      Set.Ico_union_Ico_eq_Ico
        (Nat.mul_le_mul_right _ (by omega))
        (Nat.mul_le_mul_right _ (by omega)),
      show 2 * d * 2 ^ e = d * 2 ^ (e + 1) from by ring,
      show (2 * d + 2) * 2 ^ e = (d + 1) * 2 ^ (e + 1) from by ring]
  · show Disjoint (chunkInterval (2 * (d + 1) - 1) e)
      (chunkInterval (2 * (d + 1)) e)
    rw [ea, eb]
    exact Set.Ico_disjoint_Ico_same
  · rw [splitAll_eq (e + 1) (d + 1) (by omega)]
    simp
  · rw [splitAll_eq (e + 1) (d + 1) (by omega)]
    intro q hq
    simp only [List.mem_map, List.mem_range] at hq
    obtain ⟨i, hi, rfl⟩ := hq
    rfl
  · rw [splitAll_eq (e + 1) (d + 1) (by omega), List.map_map,
      List.range'_eq_map_range]
    apply List.map_congr_left
    intro i hi
    simp only [Function.comp_apply]
    omega
  · rw [splitAll_eq (e + 1) (d + 1) (by omega)]
    have hD : (d + 1) * 2 ^ (e + 1) = d * 2 ^ (e + 1) + 2 ^ (e + 1) := by ring
    ext x
    simp only [Set.mem_iUnion, List.mem_map, List.mem_range, chunkInterval,
      Set.mem_Ico, h2, pow_zero, mul_one, exists_prop]
    constructor
    · rintro ⟨a, ⟨i, hi, rfl⟩, hx1, hx2⟩
      simp only [Nat.add_sub_cancel] at hx1 hx2
      omega
    · rintro ⟨hx1, hx2⟩
      refine ⟨(d * 2 ^ (e + 1) + (x - d * 2 ^ (e + 1)) + 1, 0),
        ⟨x - d * 2 ^ (e + 1), by omega, rfl⟩, ?_, ?_⟩ <;>
        simp only [Nat.add_sub_cancel, pow_zero, mul_one] <;> omega

/-- C1, witness: the splitting theorem applied at chunk 1, power 2. -/
theorem split_partitions_w :
    1 ≤ 1 ∧ 1 ≤ 2 ∧
      ((chunkInterval (splitChunk 1 2).1.1 (splitChunk 1 2).1.2 ∪
          chunkInterval (splitChunk 1 2).2.1 (splitChunk 1 2).2.2 =
        chunkInterval 1 2) ∧
      Disjoint (chunkInterval (splitChunk 1 2).1.1 (splitChunk 1 2).1.2)
        (chunkInterval (splitChunk 1 2).2.1 (splitChunk 1 2).2.2) ∧
      (splitAll 1 2).length = 2 ^ 2 ∧
      (∀ q ∈ splitAll 1 2, q.2 = 0) ∧
      (splitAll 1 2).map Prod.fst = List.range' ((1 - 1) * 2 ^ 2 + 1) (2 ^ 2) ∧
      (⋃ q ∈ splitAll 1 2, chunkInterval q.1 q.2) = chunkInterval 1 2) :=
  ⟨by decide, by decide, split_partitions 1 2 (by decide) (by decide)⟩

/-- C4, counterexample: the claim quantifies over every reference value, but in
the packed encoding the plain constructor zero-pads nothing away, so a reference
with bits at or above position 54 (here `2 ^ 54`, representable in a 64-bit
word) lands in the chunk field: the resulting task reports `is_not_chunked()`
false and `chunk()` one, contradicting the claim as stated. -/
theorem plain_task_high_reference_cex :
    ¬ ((mkPlain (2 ^ 54)).is_not_chunked = true ∧ (mkPlain (2 ^ 54)).chunk = 0) := by
  decide

/-- C4 (amended): for every reference value below `2 ^ 54` (in particular every
reference within the packed encoding's 49-bit oop budget), the task built by the
plain constructor satisfies `is_not_chunked() == true` and `chunk() == 0` in the
packed encoding; in the fallback encoding the same holds for every reference
value whatsoever, since the chunk field is stored separately and defaulted
to 0. -/
theorem plain_task_is_not_chunked (r : Nat) (h : r < 2 ^ 54) :
    (mkPlain r).is_not_chunked = true ∧ (mkPlain r).chunk = 0 ∧
      ∀ rf : Nat, (mkFallbackPlain rf).is_not_chunked = true ∧
        (mkFallbackPlain rf).chunk = 0 :=
  ⟨mkPlain_is_not_chunked r h, mkPlain_chunk r h, fun rf => ⟨rfl, rfl⟩⟩

/-- C4, witness: the amended theorem applied at the concrete reference 5. -/
theorem plain_task_is_not_chunked_w :
    5 < 2 ^ 54 ∧
      ((mkPlain 5).is_not_chunked = true ∧ (mkPlain 5).chunk = 0 ∧
        ∀ rf : Nat, (mkFallbackPlain rf).is_not_chunked = true ∧
          (mkFallbackPlain rf).chunk = 0) :=
  ⟨by decide, plain_task_is_not_chunked 5 (by decide)⟩

/-- C5: for every reference below `2 ^ 49`, every chunk in `[0, 2 ^ 10)` and
every power in `[0, 2 ^ 5)`, the packed chunked constructor's three bit fields
are non-overlapping and the accessors `obj()`, `chunk()` and `pow()` recover
exactly the constructor arguments. -/
theorem packed_roundtrip (o : Nat) (c p : Int) (ho : o < oop_size) (hc0 : 0 ≤ c)
    (hc : c < (chunk_size : Int)) (hp0 : 0 ≤ p) (hp : p < (pow_size : Int)) :
    (mkChunked o c p).obj = o ∧ (mkChunked o c p).chunk = c ∧
      (mkChunked o c p).pow = p :=
  ⟨mkChunked_obj o c p ho hc0 hc hp0 hp, mkChunked_chunk o c p ho hc0 hc hp0 hp,
    mkChunked_pow o c p ho hc0 hc hp0 hp⟩

/-- C5, witness: the roundtrip theorem applied at reference 5, chunk 3, power 2. -/
theorem packed_roundtrip_w :
    5 < oop_size ∧ (0 : Int) ≤ 3 ∧ (3 : Int) < (chunk_size : Int) ∧
      (0 : Int) ≤ 2 ∧ (2 : Int) < (pow_size : Int) ∧
      ((mkChunked 5 3 2).obj = 5 ∧ (mkChunked 5 3 2).chunk = 3 ∧
        (mkChunked 5 3 2).pow = 2) :=
  ⟨by decide, by decide, by decide, by decide, by decide,
    packed_roundtrip 5 3 2 (by decide) (by decide) (by decide) (by decide)
      (by decide)⟩

/-- C6: for every reference below `2 ^ 49`, chunk in `[0, 2 ^ 10)` and power in
`[0, 2 ^ 5)`, the packed encoding and the fallback encoding agree on `obj()`,
`chunk()`, `pow()` and `is_not_chunked()`, both for tasks built by the chunked
constructor and for tasks built by the plain constructor from the same
arguments. -/
theorem encodings_agree (o : Nat) (c p : Int) (ho : o < oop_size) (hc0 : 0 ≤ c)
    (hc : c < (chunk_size : Int)) (hp0 : 0 ≤ p) (hp : p < (pow_size : Int)) :
    ((mkChunked o c p).obj = (mkFallback o c p).obj ∧
      (mkChunked o c p).chunk = (mkFallback o c p).chunk ∧
      (mkChunked o c p).pow = (mkFallback o c p).pow ∧
      (mkChunked o c p).is_not_chunked = (mkFallback o c p).is_not_chunked) ∧
    ((mkPlain o).obj = (mkFallbackPlain o).obj ∧
      (mkPlain o).chunk = (mkFallbackPlain o).chunk ∧
      (mkPlain o).pow = (mkFallbackPlain o).pow ∧
      (mkPlain o).is_not_chunked = (mkFallbackPlain o).is_not_chunked) := by
  have ho' : o < 2 ^ 49 := by
    simpa [oop_size, oop_bits, chunk_bits, pow_bits] using ho
  have ho54 : o < 2 ^ 54 := lt_trans ho' (by norm_num)
  refine ⟨⟨?_, ?_, ?_, ?_⟩, ?_, ?_, ?_, ?_⟩
  · exact mkChunked_obj o c p ho hc0 hc hp0 hp
  · exact mkChunked_chunk o c p ho hc0 hc hp0 hp
  · exact mkChunked_pow o c p ho hc0 hc hp0 hp
  · exact mkChunked_is_not_chunked o c p ho hc0 hc hp0 hp
  · exact mkPlain_obj o ho'
  · exact mkPlain_chunk o ho54
  · exact mkPlain_pow o ho'
  · rw [mkPlain_is_not_chunked o ho54]
    rfl

/-- C6, witness: encoding agreement applied at reference 5, chunk 3, power 2. -/
theorem encodings_agree_w :
    5 < oop_size ∧ (0 : Int) ≤ 3 ∧ (3 : Int) < (chunk_size : Int) ∧
      (0 : Int) ≤ 2 ∧ (2 : Int) < (pow_size : Int) ∧
      (((mkChunked 5 3 2).obj = (mkFallback 5 3 2).obj ∧
        (mkChunked 5 3 2).chunk = (mkFallback 5 3 2).chunk ∧
        (mkChunked 5 3 2).pow = (mkFallback 5 3 2).pow ∧
        (mkChunked 5 3 2).is_not_chunked = (mkFallback 5 3 2).is_not_chunked) ∧
      ((mkPlain 5).obj = (mkFallbackPlain 5).obj ∧
        (mkPlain 5).chunk = (mkFallbackPlain 5).chunk ∧
        (mkPlain 5).pow = (mkFallbackPlain 5).pow ∧
        (mkPlain 5).is_not_chunked = (mkFallbackPlain 5).is_not_chunked)) :=
  ⟨by decide, by decide, by decide, by decide, by decide,
    encodings_agree 5 3 2 (by decide) (by decide) (by decide) (by decide)
      (by decide)⟩

/-- C7: for a reference representable in a 64-bit word, the debug assertions of
the packed chunked constructor hold (the checked constructor succeeds) exactly
when `0 <= chunk < 2 ^ 10`, `0 <= mult < 2 ^ 5` and the numeric value of the
reference is below `2 ^ 49`; any input outside these ranges fails an assertion. -/
theorem chunked_ctor_asserts_iff (o : Nat) (c m : Int) (ho : o < 2 ^ 64) :
    (mkChunkedChecked o c m).isSome ↔
      (0 ≤ c ∧ c < 2 ^ 10 ∧ 0 ≤ m ∧ m < 2 ^ 5 ∧ o < 2 ^ 49) := by
  have e1 : (chunk_size : Int) = 2 ^ 10 := by norm_num [chunk_size, chunk_bits]
  have e2 : (pow_size : Int) = 2 ^ 5 := by norm_num [pow_size, pow_bits]
  have e3 : oop_size = 2 ^ 49 := by
    norm_num [oop_size, oop_bits, chunk_bits, pow_bits]
  unfold mkChunkedChecked
  rw [Nat.mod_eq_of_lt ho, e1, e2, e3]
  split_ifs with h1 h2 h3 <;> simp_all

/-- C7, witness: the assertion characterization applied at reference 5, chunk 3,
power 2 (an in-range input, so the checked constructor succeeds). -/
theorem chunked_ctor_asserts_iff_w :
    5 < 2 ^ 64 ∧
      ((mkChunkedChecked 5 3 2).isSome ↔
        (0 ≤ (3 : Int) ∧ (3 : Int) < 2 ^ 10 ∧ 0 ≤ (2 : Int) ∧
          (2 : Int) < 2 ^ 5 ∧ 5 < 2 ^ 49)) :=
  ⟨by decide, chunked_ctor_asserts_iff 5 3 2 (by decide)⟩

open ParallelClaimableQueueSet

/-- A single in-range sequential claim: with the cursor at `j < N` the call
returns queue index `j` and advances the cursor to `j + 1`. -/
lemma claim_next_step (N j : Nat) (h : j < N) :
    (⟨N, (j : Int)⟩ : ParallelClaimableQueueSet).claim_next =
      (some j, ⟨N, ((j + 1 : Nat) : Int)⟩) := by
  unfold ParallelClaimableQueueSet.claim_next
  rw [if_neg (by push_cast; omega), if_pos (by push_cast; omega)]
  have h1 : ((j : Int) + 1 - 1).toNat = j := by omega
  have h2 : (j : Int) + 1 = ((j + 1 : Nat) : Int) := by push_cast; ring
  rw [h1, h2]

/-- Sequential claims from cursor `j` with `j + k ≤ N` return queue indices
`j, j+1, ..., j+k-1` and leave the cursor at `j + k`. -/
lemma claimRun_range :
    ∀ (k N j : Nat), j + k ≤ N →
      claimRun ⟨N, (j : Int)⟩ k =
        ((List.range' j k).map some, ⟨N, ((j + k : Nat) : Int)⟩) := by
  intro k
  induction k with
  | zero =>
    intro N j h
    simp [claimRun]
  | succ k ih =>
    intro N j h
    simp only [claimRun]
    rw [claim_next_step N j (by omega), ih N (j + 1) (by omega),
      List.range'_succ]
    simp only [List.map_cons]
    rw [show j + 1 + k = j + (k + 1) by omega]

/-- Once the cursor is at or past the size, every further sequential call
reports exhaustion and the state never changes. -/
lemma claimRun_exhausted :
    ∀ (k : Nat) (s : ParallelClaimableQueueSet),
      (s.size : Int) ≤ s._claimed_index →
      claimRun s k = (List.replicate k none, s) := by
  intro k
  induction k with
  | zero =>
    intro s h
    rfl
  | succ k ih =>
    intro s h
    have hnone : s.claim_next = (none, s) := by
      unfold ParallelClaimableQueueSet.claim_next
      rw [if_pos (show s._claimed_index ≥ (s.size : Int) from h)]
    simp only [claimRun, hnone]
    rw [ih s h]
    rfl

/-- Case analysis on one sequential `claim_next` call: the result is either
exhaustion or the queue at the pre-increment cursor index, the cursor never
decreases, and the size is unchanged. -/
lemma claim_next_cases (s : ParallelClaimableQueueSet) :
    (s.claim_next.1 = none ∨
      s.claim_next.1 = some s._claimed_index.toNat) ∧
    s._claimed_index ≤ s.claim_next.2._claimed_index ∧
    s.claim_next.2.size = s.size := by
  unfold ParallelClaimableQueueSet.claim_next
  split_ifs with h1 h2
  · exact ⟨Or.inl rfl, le_refl _, rfl⟩
  · refine ⟨Or.inr ?_, ?_, rfl⟩
    · show some ((s._claimed_index + 1 - 1).toNat) = _
      rw [Int.add_sub_cancel]
    · show s._claimed_index ≤ s._claimed_index + 1
      omega
  · refine ⟨Or.inl rfl, ?_, rfl⟩
    show s._claimed_index ≤ s._claimed_index + 1
    omega

/-- If the cursor is at least `k`, no sequential claim ever returns a queue
index below `k`. -/
lemma claimRun_lower (m : Nat) :
    ∀ (s : ParallelClaimableQueueSet) (k : Nat),
      (k : Int) ≤ s._claimed_index →
      ∀ i, some i ∈ (claimRun s m).1 → k ≤ i := by
  induction m with
  | zero =>
    intro s k hk i hi
    simp [claimRun] at hi
  | succ m ih =>
    intro s k hk i hi
    simp only [claimRun, List.mem_cons] at hi
    rcases hi with h1 | h1
    · rcases (claim_next_cases s).1 with h2 | h2
      · rw [h2] at h1
        exact absurd h1 (by simp)
      · rw [h2] at h1
        have hie : i = s._claimed_index.toNat := by
          simpa using h1
        omega
    · exact ih (s.claim_next.2) k (le_trans hk (claim_next_cases s).2.1) i h1

/-- C2: from the cleared state, a queue set of size `N` hands out the queues at
indices 0 through `N-1` in order over the first `N` sequential `claim_next`
calls, the `(N+1)`-th call reports exhaustion, after `clear_claimed` the whole
sequence of results and states repeats identically, and before each of the
first `N` calls the cursor equals the number of claims made so far, with the
call returning the queue at that pre-increment cursor index. -/
theorem claim_next_sequential (N : Nat) (s : ParallelClaimableQueueSet)
    (hs : s.size = N) :
    (claimRun s.clear_claimed N).1 = (List.range N).map some ∧
    ((claimRun s.clear_claimed N).2.claim_next).1 = none ∧
    claimRun ((claimRun s.clear_claimed N).2.clear_claimed) N =
      claimRun s.clear_claimed N ∧
    (∀ k, k < N →
      (claimRun s.clear_claimed k).2._claimed_index = (k : Int) ∧
      ((claimRun s.clear_claimed k).2.claim_next).1 =
        some ((claimRun s.clear_claimed k).2._claimed_index).toNat) := by
  obtain ⟨sz, ci⟩ := s
  have hsz : N = sz := (hs : sz = N).symm
  subst hsz
  have hclear :
      (ParallelClaimableQueueSet.mk N ci).clear_claimed =
        ⟨N, ((0 : Nat) : Int)⟩ := by
    simp [ParallelClaimableQueueSet.clear_claimed]
  rw [hclear]
  have hrun := claimRun_range N N 0 (by omega)
  rw [Nat.zero_add] at hrun
  refine ⟨?_, ?_, ?_, ?_⟩
  · rw [hrun]
    rw [List.range_eq_range']
  · rw [hrun]
    show ((⟨N, ((N : Nat) : Int)⟩ : ParallelClaimableQueueSet).claim_next).1 =
      none
    unfold ParallelClaimableQueueSet.claim_next
    rw [if_pos (le_refl ((N : Nat) : Int))]
  · rw [hrun]
    show claimRun
        ((⟨N, ((N : Nat) : Int)⟩ : ParallelClaimableQueueSet).clear_claimed) N =
      _
    rw [show (⟨N, ((N : Nat) : Int)⟩ :
          ParallelClaimableQueueSet).clear_claimed =
        ⟨N, ((0 : Nat) : Int)⟩ from by
        simp [ParallelClaimableQueueSet.clear_claimed], hrun]
  · intro k hk
    have hk2 : k < N := hk
    have hk' := claimRun_range k N 0 (by omega)
    rw [Nat.zero_add] at hk'
    rw [hk']
    refine ⟨rfl, ?_⟩
    show ((⟨N, ((k : Nat) : Int)⟩ :
        ParallelClaimableQueueSet).claim_next).1 = _
    rw [claim_next_step N k hk2]
    show some k = some ((((k : Nat) : Int)).toNat)
    rw [Int.toNat_natCast]

/-- C2, witness: the sequential claiming theorem applied to a freshly built
3-queue set (with arbitrary residual cursor contents 7, overwritten by the
initial `clear_claimed`). -/
theorem claim_next_sequential_w :
    (mkParallelClaimableQueueSet 3 7).size = 3 ∧
      ((claimRun (mkParallelClaimableQueueSet 3 7).clear_claimed 3).1 =
          (List.range 3).map some ∧
        ((claimRun (mkParallelClaimableQueueSet 3 7).clear_claimed 3).2.claim_next).1 =
          none ∧
        claimRun
            ((claimRun (mkParallelClaimableQueueSet 3 7).clear_claimed 3).2.clear_claimed)
            3 =
          claimRun (mkParallelClaimableQueueSet 3 7).clear_claimed 3 ∧
        (∀ k, k < 3 →
          (claimRun (mkParallelClaimableQueueSet 3 7).clear_claimed k).2._claimed_index =
            (k : Int) ∧
          ((claimRun (mkParallelClaimableQueueSet 3 7).clear_claimed k).2.claim_next).1 =
            some
              ((claimRun (mkParallelClaimableQueueSet 3 7).clear_claimed
                  k).2._claimed_index).toNat)) :=
  ⟨rfl, claim_next_sequential 3 (mkParallelClaimableQueueSet 3 7) rfl⟩

/-- C8: after `reserve(k)` (with `k` within the queue count, as the reserve
assertion demands), no sequential `claim_next` call ever returns a queue index
below `k`, and if any queue is left the first call returns the queue at index
`k`. -/
theorem reserve_excludes_low (s : ParallelClaimableQueueSet) (k : Nat)
    (hk : k ≤ s.size) :
    (∀ m i, some i ∈ (claimRun (s.reserve k) m).1 → k ≤ i) ∧
    (k < s.size → ((s.reserve k).claim_next).1 = some k) := by
  constructor
  · intro m i hi
    exact claimRun_lower m (s.reserve k) k
      (by simp [ParallelClaimableQueueSet.reserve]) i hi
  · intro hlt
    unfold ParallelClaimableQueueSet.reserve ParallelClaimableQueueSet.claim_next
    rw [if_neg (by simp; omega), if_pos (by simp; omega)]
    show some (((k : Int) + 1 - 1).toNat) = some k
    rw [Int.add_sub_cancel, Int.toNat_natCast]

/-- C8, witness: the reservation theorem applied to a 3-queue set with the first
queue reserved. -/
theorem reserve_excludes_low_w :
    1 ≤ (mkParallelClaimableQueueSet 3 0).size ∧
      ((∀ m i,
          some i ∈ (claimRun ((mkParallelClaimableQueueSet 3 0).reserve 1) m).1 →
          1 ≤ i) ∧
        (1 < (mkParallelClaimableQueueSet 3 0).size →
          (((mkParallelClaimableQueueSet 3 0).reserve 1).claim_next).1 = some 1)) :=
  ⟨by decide, reserve_excludes_low (mkParallelClaimableQueueSet 3 0) 1 (by decide)⟩

/-- C10, counterexample: the constructor records the queue count but writes
nothing into `_claimed_index` (only the debug-only `_reserved` is assigned), so
the invariant is not established by construction: with queue count 1 and
residual cursor contents 2, the freshly constructed set violates it. -/
theorem cursor_inv_ctor_cex :
    ¬ cursorInv (mkParallelClaimableQueueSet 1 2) := by
  decide

/-- C10 (amended): for a queue set in any state whatsoever — including the
uninitialized states the constructor can leave behind, since it never writes
`_claimed_index` — the cursor invariant `_claimed_index <= size` is established
by `clear_claimed` (cursor 0) and by `reserve(n)` for `n <= size` (as its
assertion demands); once it holds, it is preserved by sequential `claim_next`;
and whenever the cursor is at or past the size (invariant or not), any number of
further calls returns only exhaustion and leaves the state (hence the cursor)
unchanged. -/
theorem cursor_inv_preserved (s : ParallelClaimableQueueSet) :
    cursorInv s.clear_claimed ∧
    (∀ n : Nat, n ≤ s.size → cursorInv (s.reserve n)) ∧
    (cursorInv s → cursorInv (s.claim_next).2) ∧
    ((s.size : Int) ≤ s._claimed_index →
      ∀ m, claimRun s m = (List.replicate m none, s)) := by
  refine ⟨?_, ?_, ?_, ?_⟩
  · show (0 : Int) ≤ (s.size : Int)
    omega
  · intro n hn
    show ((n : Nat) : Int) ≤ (s.size : Int)
    omega
  · intro h
    unfold ParallelClaimableQueueSet.cursorInv at h ⊢
    unfold ParallelClaimableQueueSet.claim_next
    split_ifs with h1 h2
    · exact h
    · show s._claimed_index + 1 ≤ (s.size : Int)
      exact h2
    · show s._claimed_index + 1 ≤ (s.size : Int)
      omega
  · intro hge m
    exact claimRun_exhausted m s hge

/-- C10, witness: the amended theorem applied to the uninitialized
post-construction state of the counterexample (queue count 1, residual cursor
contents 2), from which `clear_claimed` and `reserve` do establish the
invariant. -/
theorem cursor_inv_preserved_w :
    cursorInv (mkParallelClaimableQueueSet 1 2).clear_claimed ∧
      (∀ n : Nat, n ≤ (mkParallelClaimableQueueSet 1 2).size →
        cursorInv ((mkParallelClaimableQueueSet 1 2).reserve n)) ∧
      (cursorInv (mkParallelClaimableQueueSet 1 2) →
        cursorInv ((mkParallelClaimableQueueSet 1 2).claim_next).2) ∧
      (((mkParallelClaimableQueueSet 1 2).size : Int) ≤
          (mkParallelClaimableQueueSet 1 2)._claimed_index →
        ∀ m, claimRun (mkParallelClaimableQueueSet 1 2) m =
          (List.replicate m none, mkParallelClaimableQueueSet 1 2)) :=
  cursor_inv_preserved (mkParallelClaimableQueueSet 1 2)

/-- C3: starting from an empty buffer and an empty underlying queue, after
`push(a); push(b); push(c)` the next `pop_buffer` yields `c` immediately, the
two earlier tasks `a` and `b` sit in the underlying shared queue (evicted oldest
first), and they are never returned by `pop_buffer`: after `c` is popped the
buffer is empty and further `pop_buffer` calls report nothing, leaving `a` and
`b` observable only via the shared queue. -/
theorem buffered_push_evicts (E : Type) (d a b c : E) :
    ((((((mkBufferedOverflowTaskQueue d).push a).2.push b).2.push c).2.pop_buffer).1 =
        some c) ∧
    (((((mkBufferedOverflowTaskQueue d).push a).2.push b).2.push c).2.taskqueue =
        [a, b]) ∧
    (((((((mkBufferedOverflowTaskQueue d).push a).2.push b).2.push
        c).2.pop_buffer).2.pop_buffer).1 = none) ∧
    ((((((mkBufferedOverflowTaskQueue d).push a).2.push b).2.push
        c).2.pop_buffer).2.taskqueue = [a, b]) := by
  refine ⟨rfl, rfl, rfl, rfl⟩

/-- C9: the cancelled-collection terminator capability unconditionally reports
`should_force_termination() == true` and `should_exit_termination() == false`,
on every call and in every state (the class has no state). -/
theorem cancelled_terminator_constant :
    ∀ t : ShenandoahCancelledTerminatorTerminator,
      t.should_force_termination = true ∧ t.should_exit_termination = false :=
  fun t => ⟨rfl, rfl⟩

end Shenandoah
